import Mathlib

/-!
Shallow embedding of the `elk-validator` repository (src/validator) and proofs
about its behaviour.

The embedding follows the Python sources:
  * `es_duplicates_handler.py` — `ESDuplicatesHandler`: scan, fingerprint
    grouping, duplicate deletion, reserved-index filtering, `__init__`.
  * `es_insanity_checker.py` — `ESInsanityChecker`: scroll-limited message
    fetch, per-index diff computation, worker fan-out, `LogsDiff`,
    `DiffSerializer`.

Modelling conventions: Python exceptions become `Except`/`Option` results;
an Elasticsearch hit is the record shape the code reads (`item['id']`,
`item['_source'][k]`, and mget's `doc['_id']` echoing the requested id);
the md5 digest of the concatenated key string is modelled by the
concatenated key string itself (collisions are not modelled); Python `set`
objects are modelled as deduplicated lists, which is faithful for the
membership and cardinality facts proved here; unbounded `while` loops are
given explicit fuel that provably suffices.
-/

/-- Python exception kinds raised by the modelled code paths. -/
inductive PyError where
  | nameError : String → PyError
  | attributeError : String → PyError
  | valueError : String → PyError
  | keyError : String → PyError
deriving DecidableEq, Repr

/-- An Elasticsearch hit as consumed by the code: a document id and the
`_source` field mapping (association list of field name / value). -/
structure Hit where
  id : String
  source : List (String × String)
deriving DecidableEq, Repr

/-- Field lookup in a document `_source` mapping; `none` models a Python
`KeyError` on `item['_source'][k]`. -/
def lookupField (src : List (String × String)) (k : String) : Option String :=
  (src.find? (fun p => p.1 == k)).map (fun p => p.2)

/-- `_populate_dict_of_duplicate_docs` inner loop with its running
accumulator `combinded_key`: concatenate `str(item['_source'][mykey])` over
the hash keys in order; the first missing key raises `KeyError (mykey)`. -/
def combinedKeyAux (src : List (String × String)) (acc : String) :
    List String → Except String String
  | [] => Except.ok acc
  | k :: rest =>
    match lookupField src k with
    | some v => combinedKeyAux src (acc ++ v) rest
    | none => Except.error k

/-- The combined key of a document over `self.keys_to_include_in_hash`. -/
def combinedKey (keys : List String) (src : List (String × String)) :
    Except String String :=
  combinedKeyAux src "" keys

/-- `self.dict_of_duplicate_docs`: hashval → list of document ids, in
first-seen scan order (the md5 digest is modelled by the combined key). -/
abbrev DupDict := List (String × List String)

/-- Python `dict.setdefault(hashval, []).append(_id)`. -/
def dictSetdefaultAppend (d : DupDict) (k : String) (v : String) : DupDict :=
  if d.any (fun p => p.1 == k) then
    d.map (fun p => if p.1 = k then (p.1, p.2 ++ [v]) else p)
  else
    d ++ [(k, [v])]

/-- `_populate_dict_of_duplicate_docs(hits)`: for each hit, append its id
(`_id = item['id']`) to the group of its fingerprint; the first missing
hash-key field aborts the whole call with that `KeyError`. -/
def populateDictOfDuplicateDocs (keys : List String) (d : DupDict) :
    List Hit → Except String DupDict
  | [] => Except.ok d
  | item :: rest =>
    match combinedKey keys item.source with
    | Except.ok hashval =>
      populateDictOfDuplicateDocs keys (dictSetdefaultAppend d hashval item.id) rest
    | Except.error e => Except.error e

/-- Reading a group out of the duplicates dictionary (first entry with the
key; empty when absent). -/
def lookupGroup : DupDict → String → List String
  | [], _ => []
  | p :: t, k => if p.1 = k then p.2 else lookupGroup t k

/-- The fingerprint of a document, as an `Option` (`none` = some hash-key
field missing). -/
def ckOpt (keys : List String) (src : List (String × String)) : Option String :=
  (combinedKey keys src).toOption

/-- The ids of the documents of `docs` whose fingerprint is `fp`, in scan
order (this is what the populated dictionary stores under `fp`). -/
def groupIds (keys : List String) (docs : List Hit) (fp : String) : List String :=
  (docs.filter (fun h => ckOpt keys h.source == some fp)).map (fun h => h.id)

/-- Elasticsearch `mget` returns one response document per requested id, in
request order, with `_id` echoing the request; the code deletes by
`doc['_id']` over `matching_docs['docs'][1:]`. -/
def mgetResponseIds (ids : List String) : List String := ids

/-- `_loop_over_hashes_and_remove_duplicates`: for every group with more
than one member, issue one mget for the whole group and one delete per id
after the first.  Returns (mget requests issued, delete ids issued). -/
def loopOverHashesAndRemoveDuplicates (d : DupDict) :
    List (List String) × List String :=
  d.foldl (fun acc p =>
    if p.2.length > 1 then
      (acc.1 ++ [p.2], acc.2 ++ (mgetResponseIds p.2).drop 1)
    else acc) ([], [])

/-- The store content after the delete pass: deleting by id removes every
document whose id was condemned (a not-found delete is non-fatal and leaves
the store unchanged, which the filter models as well). -/
def afterDelete (docs : List Hit) (condemned : List String) : List Hit :=
  docs.filter (fun h => !(condemned.contains h.id))

/-- `_scroll_over_all_docs` loop body: having just processed a batch, stop
if it was empty, otherwise fetch and process the next response. -/
def scrollContinue : List (List Hit) → List Hit
  | [] => []
  | b :: rest => b ++ (if b.isEmpty then [] else scrollContinue rest)

/-- `_scroll_over_all_docs`: the sequence of hits handed to
`_populate_dict_of_duplicate_docs`.  `stream` is the sequence of store
responses (initial search batch, then one batch per scroll; an exhausted
scroll yields empty batches). -/
def scrollOverAllDocs : List (List Hit) → List Hit
  | [] => []
  | b0 :: rest => b0 ++ (if b0.isEmpty then [] else scrollContinue rest)

/-- Python `str.startswith`, on the underlying character lists. -/
def pyStartsWith (s pre : String) : Bool :=
  pre.data.isPrefixOf s.data

/-- One iteration body of `_generate_indices_names`: for each reserved name,
if the current index name starts with it, `sorted_indices.remove(index_name)`
(removing an absent element raises `ValueError`, which the code catches and
logs, leaving the list unchanged — exactly `List.erase`). -/
def removeReservedBody (reserved : List String) (lst : List String)
    (x : String) : List String :=
  reserved.foldl (fun acc r => if pyStartsWith x r then acc.erase x else acc) lst

/-- Python string comparison: lexicographic over characters. -/
def pyStrLt : List Char → List Char → Bool
  | [], [] => false
  | [], _ :: _ => true
  | _ :: _, [] => false
  | a :: as, b :: bs => if a < b then true else if b < a then false else pyStrLt as bs

/-- Stable insertion into an ascending list (model of Python `sorted`). -/
def insertSorted (s : String) : List String → List String
  | [] => [s]
  | x :: xs => if pyStrLt s.data x.data then s :: x :: xs else x :: insertSorted s xs

/-- Python `sorted(...)` on strings: ascending lexicographic order. -/
def sortedStrings (l : List String) : List String :=
  l.foldr insertSorted []

/-- Python `for index_name in sorted_indices:` over a list that the body
mutates: the interpreter walks an advancing position, re-reading the list,
so removals shift later elements under the cursor.  `fuel` is a modelling
device; the initial list length suffices because the position strictly
increases and the list never grows. -/
def generateIndicesAux (reserved : List String) :
    Nat → Nat → List String → List String
  | 0, _, lst => lst
  | fuel + 1, i, lst =>
    if h : i < lst.length then
      generateIndicesAux reserved fuel (i + 1)
        (removeReservedBody reserved lst (lst.get ⟨i, h⟩))
    else lst

/-- `_generate_indices_names`: take the alias keys, set-deduplicate, sort,
then run the mutating filter loop. -/
def generateIndicesNames (reserved : List String) (aliasKeys : List String) :
    List String :=
  let lst := sortedStrings aliasKeys.eraseDups
  generateIndicesAux reserved lst.length 0 lst

/-- Names defined at module level in `es_duplicates_handler.py` (imports,
the `MSG_FORMAT` constant and the class itself): the namespace in which the
`super(...)` call at the end of `__init__` resolves its first argument. -/
def duplicatesHandlerModuleNames : List String :=
  ["print_function", "OptionParser", "ESLogger", "elasticsearch", "hashlib",
   "time", "utils", "MSG_FORMAT", "ESDuplicatesHandler"]

/-- The attributes `ESDuplicatesHandler.__init__` assigns before its
`super(...)` call. -/
structure ESDuplicatesHandlerState where
  esHost : String
  esPort : Nat
  allIndices : Bool
  index : Option String
  testOutputDir : String
  dictOfDuplicateDocs : DupDict
  indicesNames : List String
  keysToIncludeInHash : List String
  reservedIndexNames : List String
deriving DecidableEq, Repr

/-- `ESDuplicatesHandler.__init__`: assigns all attributes, then executes
`super(ESDuplicateHandler, self).__init__(...)` — the name
`ESDuplicateHandler` is looked up in the module namespace and is undefined
(the class is `ESDuplicatesHandler`), so construction raises `NameError`
before any store connection is attempted. -/
def esDuplicatesHandlerInit (esHost : String) (esPort : Nat)
    (testOutputDir : String) (allIndices : Bool) (indexName : Option String)
    (hashKeys : List String) (reservedIndexNames : Option (List String)) :
    Except PyError ESDuplicatesHandlerState :=
  let reserved :=
    match reservedIndexNames with
    | some l => if l.isEmpty then [".kibana", ".metricbeat"] else l
    | none => [".kibana", ".metricbeat"]
  let st : ESDuplicatesHandlerState :=
    { esHost := esHost, esPort := esPort, allIndices := allIndices,
      index := indexName, testOutputDir := testOutputDir,
      dictOfDuplicateDocs := [], indicesNames := [],
      keysToIncludeInHash := hashKeys, reservedIndexNames := reserved }
  if duplicatesHandlerModuleNames.contains "ESDuplicateHandler" then
    Except.ok st
  else
    Except.error (PyError.nameError "ESDuplicateHandler")

/-- `ES_DOC_SCROLL` constant of `es_insanity_checker.py`. -/
def esDocScroll : Nat := 5

/-- `MSG_FORMAT % hit["_source"]` with `MSG_FORMAT = "%(message)s\n"`: read
the `message` field and append a newline; a missing field raises `KeyError`. -/
def msgFormat (src : List (String × String)) : Option String :=
  (lookupField src "message").map (fun m => m ++ "\x0a")

/-- The `for hit in res['hits']['hits']` loop: append the formatted message
of every hit of one response; a missing `message` field raises `KeyError`
and aborts everything. -/
def formatBatch : List Hit → Option (List String)
  | [] => some []
  | h :: t =>
    match msgFormat h.source with
    | none => none
    | some m => (formatBatch t).map (fun ms => m :: ms)

/-- The `for i in xrange(0, ES_DOC_SCROLL)` loop of `_get_es_raw_messages`:
append the formatted messages of the current response and scroll; a scroll
past the end of the stream returns an empty batch. -/
def esScrollGo : Nat → List (List Hit) → Option (List String)
  | 0, _ => some []
  | _ + 1, [] => some []
  | n + 1, b :: rest =>
    match formatBatch b with
    | none => none
    | some msgs =>
      match esScrollGo n rest with
      | none => none
      | some tailMsgs => some (msgs ++ tailMsgs)

/-- `_get_es_raw_messages`: exactly `ES_DOC_SCROLL` loop iterations, so
exactly the first `ES_DOC_SCROLL` responses are read; the function returns
normally (`some`) even when further non-empty batches remain unread. -/
def getEsRawMessages (stream : List (List Hit)) : Option (List String) :=
  esScrollGo esDocScroll stream

/-- Python `line.replace('\r\n', '\n')`: replace every (non-overlapping,
left-to-right) CRLF by LF. -/
def replaceCRLF : List Char → List Char
  | [] => []
  | '\x0d' :: '\x0a' :: rest => '\x0a' :: replaceCRLF rest
  | c :: rest => c :: replaceCRLF rest

/-- Newline normalization applied to both line lists in `_create_index_diff`. -/
def normalizeLine (s : String) : String :=
  ⟨replaceCRLF s.data⟩

/-- `orig_set = set(log_file_content)` after normalization: the unique
canonical lines of the source log file. -/
def canonicalSet (logFileContent : List String) : List String :=
  (logFileContent.map normalizeLine).dedup

/-- `es_set = set(es_raw_logs)` after normalization: the unique
reconstructed store lines. -/
def storeSet (esRawLogs : List String) : List String :=
  (esRawLogs.map normalizeLine).dedup

/-- `diff_lst = [line for line in orig_set if line not in es_set]`. -/
def createIndexDiffLines (logFileContent esRawLogs : List String) :
    List String :=
  (canonicalSet logFileContent).filter
    (fun line => !((storeSet esRawLogs).contains line))

/-- The `LogsDiff` object of `es_insanity_checker.py`. -/
structure LogsDiff where
  diffName : String
  logLines : List String
  outputDir : String
deriving DecidableEq, Repr

/-- One `_create_index_diff` worker: fetch the index messages (a connection
failure or a missing `message` field raises and kills the thread), read the
log file (an I/O error likewise kills the thread), else build the diff
object that the worker appends to `self.diffs` under the mutex.  `none`
models a worker that died without appending anything. -/
def createIndexDiffRun (readFile : String → Option (List String))
    (esSearch : String → Option (List (List Hit)))
    (indexName logFilePath outputDir : String) : Option LogsDiff :=
  match esSearch indexName with
  | none => none
  | some stream =>
    match getEsRawMessages stream with
    | none => none
    | some esRawLogs =>
      match readFile logFilePath with
      | none => none
      | some content =>
        some ⟨indexName, createIndexDiffLines content esRawLogs, outputDir⟩

/-- `_create_diffs`: one worker per `indices_to_paths` entry; `join()` waits
for all of them; the shared `self.diffs` list ends up holding exactly the
diff objects of the workers that did not die — a failed worker contributes
nothing and no failure record exists. -/
def createDiffs (readFile : String → Option (List String))
    (esSearch : String → Option (List (List Hit))) (outputDir : String)
    (indicesToPaths : List (String × String)) : List LogsDiff :=
  indicesToPaths.filterMap
    (fun kv => createIndexDiffRun readFile esSearch kv.1 kv.2 outputDir)

/-- The method names defined on class `DiffSerializer`. -/
def diffSerializerClassAttrs : List String :=
  ["__init__", "serialize", "_get_serializer", "_serialize_to_file",
   "_serialize_to_tempfile", "_serialize_to_stdout", "_write_diff_file",
   "_create_index_dir"]

/-- Python attribute lookup `self.<name>` on a `DiffSerializer` instance:
an undefined attribute raises `AttributeError`. -/
def resolveSerializerAttr (n : String) : Except PyError String :=
  if diffSerializerClassAttrs.contains n then Except.ok n
  else Except.error (PyError.attributeError n)

/-- `_get_serializer`: string-keyed dispatch.  For `FILE` the code returns
`self._serialze_to` — a misspelt, undefined attribute; the two stub formats
resolve to their (empty) methods; anything else raises `ValueError`. -/
def getSerializerDispatch (outputFormat : String) : Except PyError String :=
  if outputFormat == "FILE" then resolveSerializerAttr "_serialze_to"
  else if outputFormat == "TEMPFILE" then
    resolveSerializerAttr "_serialize_to_tempfile"
  else if outputFormat == "STDOUT" then
    resolveSerializerAttr "_serialize_to_stdout"
  else Except.error (PyError.valueError outputFormat)

/-- The attributes `DiffSerializer.__init__` stores; it performs no format
validation of any kind, so construction succeeds for every format. -/
structure DiffSerializerState where
  diff : LogsDiff
  outputFormat : String
  outputDir : Option String
deriving DecidableEq, Repr

/-- `DiffSerializer.__init__`. -/
def mkDiffSerializer (diff : LogsDiff) (outputFormat : String)
    (outputDir : Option String) : DiffSerializerState :=
  { diff := diff, outputFormat := outputFormat, outputDir := outputDir }

/-- `DIFF_FILE` constant. -/
def diffFileName : String := "es_to_orig.diff"

/-- `DiffSerializer.serialize()`: resolve the serializer callback for the
stored format and invoke it.  The result is the list of file paths written:
`_serialize_to_file` writes the per-index diff artifact, the `TEMPFILE` and
`STDOUT` stubs are `pass` bodies writing nothing. -/
def serializeRun (diff : LogsDiff) (outputFormat : String)
    (outputDir : String) : Except PyError (List String) :=
  match getSerializerDispatch outputFormat with
  | Except.error e => Except.error e
  | Except.ok m =>
    if m == "_serialize_to_file" then
      Except.ok [outputDir ++ "/" ++ diff.diffName ++ "/" ++ diffFileName]
    else Except.ok []

/-! ## Helper lemmas -/

/-- Formatting a concatenation of batches formats each batch in turn. -/
theorem formatBatch_append (l1 l2 : List Hit) :
    formatBatch (l1 ++ l2)
      = (formatBatch l1).bind (fun a => (formatBatch l2).map (fun b => a ++ b)) := by
  induction l1 with
  | nil => simp [formatBatch]
  | cons h t ih =>
    rw [List.cons_append]
    cases hm : msgFormat h.source with
    | none => simp [formatBatch, hm]
    | some m =>
      have hL : formatBatch (h :: (t ++ l2))
          = (formatBatch (t ++ l2)).map (fun ms => m :: ms) := by
        simp [formatBatch, hm]
      have hR : formatBatch (h :: t)
          = (formatBatch t).map (fun ms => m :: ms) := by
        simp [formatBatch, hm]
      rw [hL, hR, ih]
      cases formatBatch t <;> cases formatBatch l2 <;> simp

/-- The scroll counter reads exactly the first `n` responses. -/
theorem esScrollGo_take (n : Nat) (stream : List (List Hit)) :
    esScrollGo n stream = formatBatch ((stream.take n).flatten) := by
  induction n generalizing stream with
  | zero => simp [esScrollGo, formatBatch]
  | succ n ih =>
    cases stream with
    | nil => simp [esScrollGo, formatBatch]
    | cons b rest =>
      rw [List.take_succ_cons, List.flatten_cons, formatBatch_append]
      simp only [esScrollGo, ih]
      cases formatBatch b <;> cases formatBatch ((rest.take n).flatten) <;> simp

/-- The dedup-pass scroll loop visits every batch while batches stay
non-empty. -/
theorem scrollContinue_flatten (stream : List (List Hit))
    (h : ∀ b ∈ stream, b ≠ []) : scrollContinue stream = stream.flatten := by
  induction stream with
  | nil => rfl
  | cons b rest ih =>
    have hb : b.isEmpty = false := List.isEmpty_eq_false.mpr (h b (by simp))
    simp [scrollContinue, hb, ih (fun x hx => h x (by simp [hx]))]

/-- Length of a `filterMap` counts the inputs mapped to `some`. -/
theorem length_filterMap_eq {α β : Type} (f : α → Option β) (l : List α) :
    (l.filterMap f).length = (l.filter (fun a => (f a).isSome)).length := by
  induction l with
  | nil => rfl
  | cons a t ih =>
    cases hf : f a <;> simp [List.filterMap_cons, hf, List.filter_cons, ih]

/-- A failing combined key names a configured hash key that the document's
source mapping lacks. -/
theorem combinedKeyAux_error_mem (src : List (String × String)) (k : String)
    (keys : List String) (acc : String)
    (h : combinedKeyAux src acc keys = Except.error k) :
    k ∈ keys ∧ lookupField src k = none := by
  induction keys generalizing acc with
  | nil => simp [combinedKeyAux] at h
  | cons k0 rest ih =>
    cases hl : lookupField src k0 with
    | some v =>
      have h2 : combinedKeyAux src (acc ++ v) rest = Except.error k := by
        simpa [combinedKeyAux, hl] using h
      obtain ⟨hm, hn⟩ := ih (acc ++ v) h2
      exact ⟨List.mem_cons_of_mem _ hm, hn⟩
    | none =>
      have hk0 : k0 = k := by simpa [combinedKeyAux, hl] using h
      subst hk0
      exact ⟨List.mem_cons_self _ _, hl⟩

/-- A successful combined key certifies that every configured hash key is
present on the document. -/
theorem combinedKeyAux_ok_isSome (src : List (String × String)) (s : String)
    (keys : List String) (acc : String)
    (h : combinedKeyAux src acc keys = Except.ok s) :
    ∀ k ∈ keys, (lookupField src k).isSome := by
  induction keys generalizing acc with
  | nil => intro k hk; cases hk
  | cons k0 rest ih =>
    intro k hk
    cases hl : lookupField src k0 with
    | some v =>
      rcases List.mem_cons.mp hk with rfl | hkr
      · simp [hl]
      · exact ih (acc ++ v) (by simpa [combinedKeyAux, hl] using h) k hkr
    | none => simp [combinedKeyAux, hl] at h

/-! ## Claim theorems -/

/-- C1: for every partition, a line is in the diff's missing lines iff it
is in the canonical set (unique newline-normalized source-file lines) and
not in the store set (unique newline-normalized reconstructed message
lines); consequently there are at most as many missing lines as unique
canonical lines. -/
theorem diff_missing_iff_canonical_not_store
    (logFileContent esRawLogs : List String) :
    (∀ L, L ∈ createIndexDiffLines logFileContent esRawLogs ↔
      (L ∈ canonicalSet logFileContent ∧ L ∉ storeSet esRawLogs))
    ∧ (createIndexDiffLines logFileContent esRawLogs).length
        ≤ (canonicalSet logFileContent).length := by
  constructor
  · intro L
    simp [createIndexDiffLines, List.mem_filter]
  · exact List.length_filter_le _ _

/-- Witness for C1 at the spec's own example: canonical `{"x\n","y\n"}`,
store `{"x\n"}` yields missing line `"y\n"`. -/
theorem diff_missing_iff_canonical_not_store_witness :
    "y\x0a" ∈ createIndexDiffLines ["x\x0a", "y\x0a"] ["x\x0a"] :=
  ((diff_missing_iff_canonical_not_store ["x\x0a", "y\x0a"] ["x\x0a"]).1
    "y\x0a").mpr ⟨by decide, by decide⟩

/-- C9: every construction of the duplicates handler fails with
`NameError("ESDuplicateHandler")` — the `super(...)` call at the end of
`__init__` names an identifier that the module never defines — so no store
connection is made and no public dedup operation is reachable through
normal construction. -/
theorem esDuplicatesHandlerInit_always_nameError (esHost : String)
    (esPort : Nat) (testOutputDir : String) (allIndices : Bool)
    (indexName : Option String) (hashKeys : List String)
    (reservedIndexNames : Option (List String)) :
    esDuplicatesHandlerInit esHost esPort testOutputDir allIndices indexName
      hashKeys reservedIndexNames
      = Except.error (PyError.nameError "ESDuplicateHandler") := rfl

/-- C10: serializing with the supported `FILE` format raises
`AttributeError` on the misspelt `_serialze_to` attribute; the error result
carries no written file (only an `ok` result lists written paths, and the
file-writing method `_serialize_to_file` is never reached). -/
theorem serialize_FILE_raises_attributeError (diff : LogsDiff)
    (outputDir : String) :
    serializeRun diff "FILE" outputDir
      = Except.error (PyError.attributeError "_serialze_to") := rfl

/-- C4 counterexample: constructing a serializer with `TEMPFILE` (or
`STDOUT`) succeeds — `__init__` merely stores the format — and `serialize()`
then runs the `pass` stub, returning successfully having written nothing:
selecting an unimplemented format silently does nothing instead of failing
fast at construction. -/
theorem serializer_stub_formats_silently_no_op :
    mkDiffSerializer ⟨"idx", [], "out"⟩ "TEMPFILE" (some "out")
      = { diff := ⟨"idx", [], "out"⟩, outputFormat := "TEMPFILE",
          outputDir := some "out" }
    ∧ serializeRun ⟨"idx", [], "out"⟩ "TEMPFILE" "out" = Except.ok []
    ∧ serializeRun ⟨"idx", [], "out"⟩ "STDOUT" "out" = Except.ok [] :=
  ⟨rfl, rfl, rfl⟩

/-- C4 amended: serializer construction performs no validation and stores
any format; selecting `TEMPFILE` or `STDOUT` makes `serialize()` run a stub
that silently writes nothing; a format outside the closed set raises
`ValueError` (not `UnsupportedFormatError`) only when `serialize()` runs,
not at construction. -/
theorem serializer_validation_only_at_serialize_time (diff : LogsDiff)
    (outputDir : String) (fmt : String) :
    (mkDiffSerializer diff fmt none).outputFormat = fmt
    ∧ serializeRun diff "TEMPFILE" outputDir = Except.ok []
    ∧ serializeRun diff "STDOUT" outputDir = Except.ok []
    ∧ (fmt ≠ "FILE" → fmt ≠ "TEMPFILE" → fmt ≠ "STDOUT" →
        serializeRun diff fmt outputDir
          = Except.error (PyError.valueError fmt)) := by
  refine ⟨rfl, rfl, rfl, ?_⟩
  intro h1 h2 h3
  simp [serializeRun, getSerializerDispatch, h1, h2, h3]

/-- Witness for C4 at a concrete unknown format. -/
theorem serializer_validation_only_at_serialize_time_witness :
    serializeRun ⟨"idx", [], "out"⟩ "BOGUS" "out"
      = Except.error (PyError.valueError "BOGUS") :=
  (serializer_validation_only_at_serialize_time ⟨"idx", [], "out"⟩ "out"
    "BOGUS").2.2.2 (by decide) (by decide) (by decide)

/-- C7: evaluating `_generate_indices_names` on reserved names `.kibana`
and `.metricbeat` and aliases `.kibana-5`, `.kibana-6`,
`app-logs-2024.01.01`: removing `.kibana-5` mid-iteration shifts the list
so the loop never examines `.kibana-6`, which stays scheduled although it
starts with the reserved `.kibana` — the intended filter (drop every
reserved-prefixed name) is not what the loop computes. -/
theorem generateIndicesNames_keeps_reserved_name :
    generateIndicesNames [".kibana", ".metricbeat"]
      [".kibana-6", ".kibana-5", "app-logs-2024.01.01"]
      = [".kibana-6", "app-logs-2024.01.01"]
    ∧ pyStartsWith ".kibana-6" ".kibana" = true := by
  exact ⟨by decide, by decide⟩

/-- C5 counterexample: six non-empty single-hit batches; the diff-pass
scanner returns successfully (`some`, treated as completion) with only the
first five messages — the sixth document is silently dropped and the
truncation is not surfaced. -/
theorem getEsRawMessages_silent_truncation :
    getEsRawMessages
      [[⟨"1", [("message", "m1")]⟩], [⟨"2", [("message", "m2")]⟩],
       [⟨"3", [("message", "m3")]⟩], [⟨"4", [("message", "m4")]⟩],
       [⟨"5", [("message", "m5")]⟩], [⟨"6", [("message", "m6")]⟩]]
      = some ["m1\x0a", "m2\x0a", "m3\x0a", "m4\x0a", "m5\x0a"]
    ∧ ([[⟨("1" : String), [(("message" : String), ("m1" : String))]⟩],
        [⟨"2", [("message", "m2")]⟩], [⟨"3", [("message", "m3")]⟩],
        [⟨"4", [("message", "m4")]⟩], [⟨"5", [("message", "m5")]⟩],
        [⟨"6", [("message", "m6")]⟩]] : List (List Hit)).flatten.length = 6 :=
  ⟨rfl, rfl⟩

/-- C5 amended: the dedup-pass scanner (`_scroll_over_all_docs`) does keep
advancing until an empty batch and visits every document, but it has no
cap; the diff-pass scanner (`_get_es_raw_messages`) performs exactly
`ES_DOC_SCROLL = 5` advances, reading only the first five responses, and
returns normally with no truncation signal when more batches remain. -/
theorem scanner_exhaustion_and_fixed_scroll_cap :
    (∀ stream : List (List Hit), (∀ b ∈ stream, b ≠ []) →
      scrollOverAllDocs stream = stream.flatten)
    ∧ (∀ stream : List (List Hit),
        getEsRawMessages stream
          = formatBatch ((stream.take esDocScroll).flatten)) := by
  constructor
  · intro stream h
    cases stream with
    | nil => rfl
    | cons b rest =>
      have hb : b.isEmpty = false := List.isEmpty_eq_false.mpr (h b (by simp))
      simp [scrollOverAllDocs, hb,
        scrollContinue_flatten rest (fun x hx => h x (by simp [hx]))]
  · intro stream
    exact esScrollGo_take esDocScroll stream

/-- Witness for C5 at a concrete two-batch partition. -/
theorem scanner_exhaustion_and_fixed_scroll_cap_witness :
    scrollOverAllDocs
        [[⟨"1", [("message", "m1")]⟩], [⟨"2", [("message", "m2")]⟩]]
      = ([[⟨"1", [("message", "m1")]⟩],
          [⟨"2", [("message", "m2")]⟩]] : List (List Hit)).flatten :=
  scanner_exhaustion_and_fixed_scroll_cap.1
    [[⟨"1", [("message", "m1")]⟩], [⟨"2", [("message", "m2")]⟩]] (by decide)

/-- C3 counterexample: two partitions are dispatched; the second worker
dies reading its log file; after the join the shared collection holds a
single result — not two outcomes — and no failure record of any kind
exists, so the failed partition silently disappears. -/
theorem createDiffs_drops_failed_worker :
    createDiffs (fun p => if p == "/p1" then some ["x\x0a"] else none)
      (fun _ => some [[⟨"a", [("message", "x")]⟩]]) "out"
      [("idx1", "/p1"), ("idx2", "/p2")]
      = [⟨"idx1", [], "out"⟩]
    ∧ [("idx1", "/p1"), ("idx2", "/p2")].length = 2 :=
  ⟨rfl, rfl⟩

/-- C3 amended: after the join, the shared collection holds exactly one
`LogsDiff` per dispatched partition whose worker completed without error —
its length counts the successful units only — and every collected result
comes from some dispatched entry; a failing worker contributes nothing and
no failure is recorded. -/
theorem createDiffs_collects_successes_only
    (readFile : String → Option (List String))
    (esSearch : String → Option (List (List Hit))) (outputDir : String)
    (indicesToPaths : List (String × String)) :
    (createDiffs readFile esSearch outputDir indicesToPaths).length
      = (indicesToPaths.filter (fun kv =>
          (createIndexDiffRun readFile esSearch kv.1 kv.2 outputDir).isSome)).length
    ∧ ∀ dobj ∈ createDiffs readFile esSearch outputDir indicesToPaths,
        ∃ kv ∈ indicesToPaths,
          createIndexDiffRun readFile esSearch kv.1 kv.2 outputDir = some dobj := by
  constructor
  · exact length_filterMap_eq _ indicesToPaths
  · intro dobj hd
    exact List.mem_filterMap.mp hd

/-- Witness for C3: the only collected diff of a one-entry map comes from
that entry. -/
theorem createDiffs_collects_successes_only_witness :
    ∃ kv ∈ [(("idx1" : String), ("/p1" : String))],
      createIndexDiffRun (fun p => if p == "/p1" then some ["x\x0a"] else none)
        (fun _ => some [[⟨"a", [("message", "x")]⟩]]) kv.1 kv.2 "out"
        = some ⟨"idx1", [], "out"⟩ :=
  (createDiffs_collects_successes_only
    (fun p => if p == "/p1" then some ["x\x0a"] else none)
    (fun _ => some [[⟨"a", [("message", "x")]⟩]]) "out"
    [("idx1", "/p1")]).2 ⟨"idx1", [], "out"⟩ (by decide)

/-- C6 counterexample: a batch whose second document lacks the configured
hash key `message`: ingest aborts for the whole batch with a bare
`KeyError("message")` — the error names only the field, carries no document
id and is no `MissingFieldError`; the third document is never ingested. -/
theorem ingest_missing_key_bare_keyError :
    populateDictOfDuplicateDocs ["message"] []
      [⟨"d1", [("message", "m1")]⟩, ⟨"d2", [("host", "h2")]⟩,
       ⟨"d3", [("message", "m3")]⟩]
      = Except.error "message" := rfl

/-- C6 amended: whenever some document of the batch lacks some configured
hash-key field, ingest fails with a `KeyError` naming one of the configured
fields (and nothing else — no document id), aborting the whole batch; the
field is never silently treated as empty. -/
theorem ingest_missing_key_aborts_with_field_name (keys : List String)
    (hits : List Hit) (d0 : DupDict)
    (h : ∃ hdoc ∈ hits, ∃ k ∈ keys, lookupField hdoc.source k = none) :
    ∃ k, k ∈ keys ∧ populateDictOfDuplicateDocs keys d0 hits = Except.error k := by
  induction hits generalizing d0 with
  | nil =>
    obtain ⟨hdoc, hm, _⟩ := h
    cases hm
  | cons a t ih =>
    obtain ⟨hdoc, hm, k, hk, hlk⟩ := h
    cases hck : combinedKey keys a.source with
    | error e =>
      refine ⟨e, (combinedKeyAux_error_mem a.source e keys "" hck).1, ?_⟩
      simp [populateDictOfDuplicateDocs, hck]
    | ok s =>
      rcases List.mem_cons.mp hm with rfl | hmt
      · have := combinedKeyAux_ok_isSome hdoc.source s keys "" hck k hk
        simp [hlk] at this
      · obtain ⟨k2, hk2, hpop⟩ :=
          ih (dictSetdefaultAppend d0 s a.id) ⟨hdoc, hmt, k, hk, hlk⟩
        exact ⟨k2, hk2, by simp [populateDictOfDuplicateDocs, hck, hpop]⟩

/-- Witness for C6 at a concrete batch. -/
theorem ingest_missing_key_aborts_with_field_name_witness :
    ∃ k, k ∈ ["message"]
      ∧ populateDictOfDuplicateDocs ["message"] []
          [⟨"d2", [("host", "h2")]⟩] = Except.error k :=
  ingest_missing_key_aborts_with_field_name ["message"]
    [⟨"d2", [("host", "h2")]⟩] []
    ⟨⟨"d2", [("host", "h2")]⟩, by decide, "message", by decide, rfl⟩

/-! ## Dictionary lemmas for the dedup pass -/

/-- The keys of the duplicates dictionary. -/
def dictKeys (d : DupDict) : List String := d.map (fun p => p.1)

/-- Appending under an existing key extends exactly that group. -/
theorem lookupGroup_map_append (d : DupDict) (k v : String)
    (hany : d.any (fun p => p.1 == k) = true) :
    lookupGroup (d.map (fun p => if p.1 = k then (p.1, p.2 ++ [v]) else p)) k
      = lookupGroup d k ++ [v] := by
  induction d with
  | nil => simp at hany
  | cons p t ih =>
    by_cases hp : p.1 = k
    · simp [lookupGroup, hp]
    · have hany2 : t.any (fun p => p.1 == k) = true := by
        simpa [List.any_cons, hp] using hany
      simp only [List.map_cons, if_neg hp, lookupGroup, ih hany2]

/-- Appending a fresh key puts its singleton group at the end. -/
theorem lookupGroup_append_new (d : DupDict) (k v : String)
    (hany : d.any (fun p => p.1 == k) = false) :
    lookupGroup (d ++ [(k, [v])]) k = lookupGroup d k ++ [v] := by
  induction d with
  | nil => simp [lookupGroup]
  | cons p t ih =>
    have hp : ¬ p.1 = k := by
      intro he
      simp [List.any_cons, he] at hany
    have hany2 : t.any (fun p => p.1 == k) = false := by
      revert hany
      simp [List.any_cons, hp]
    simp [lookupGroup, hp, ih hany2]

/-- `setdefault`-append on key `k` extends the group of `k`. -/
theorem lookupGroup_setdefault_self (d : DupDict) (k v : String) :
    lookupGroup (dictSetdefaultAppend d k v) k = lookupGroup d k ++ [v] := by
  cases hany : d.any (fun p => p.1 == k) with
  | true =>
    rw [dictSetdefaultAppend, if_pos hany]
    exact lookupGroup_map_append d k v hany
  | false =>
    rw [dictSetdefaultAppend, if_neg (by simp [hany])]
    exact lookupGroup_append_new d k v hany

/-- `setdefault`-append on key `k` leaves every other group unchanged. -/
theorem lookupGroup_setdefault_other (d : DupDict) (k v q : String)
    (hq : q ≠ k) :
    lookupGroup (dictSetdefaultAppend d k v) q = lookupGroup d q := by
  cases hany : d.any (fun p => p.1 == k) with
  | true =>
    rw [dictSetdefaultAppend, if_pos hany]
    clear hany
    induction d with
    | nil => rfl
    | cons p t ih =>
      by_cases hpk : p.1 = k
      · have hpq : ¬ p.1 = q := fun he => hq (by rw [← he, hpk])
        simp only [List.map_cons, if_pos hpk, lookupGroup]
        rw [if_neg (by simpa [hpk] using hpq), if_neg hpq, ih]
      · by_cases hpq : p.1 = q
        · simp only [List.map_cons, if_neg hpk, lookupGroup, if_pos hpq]
        · simp only [List.map_cons, if_neg hpk, lookupGroup, if_neg hpq, ih]
  | false =>
    rw [dictSetdefaultAppend, if_neg (by simp [hany])]
    clear hany
    induction d with
    | nil => simp [lookupGroup, Ne.symm hq]
    | cons p t ih =>
      by_cases hpq : p.1 = q
      · simp [lookupGroup, hpq]
      · simp [lookupGroup, hpq, ih]

/-- `setdefault`-append preserves existing keys and adds `k` only when
absent. -/
theorem dictKeys_setdefault (d : DupDict) (k v : String) :
    dictKeys (dictSetdefaultAppend d k v)
      = if d.any (fun p => p.1 == k) then dictKeys d else dictKeys d ++ [k] := by
  by_cases hany : d.any (fun p => p.1 == k) = true
  · rw [dictSetdefaultAppend, if_pos hany, if_pos hany]
    unfold dictKeys
    rw [List.map_map]
    apply List.map_congr_left
    intro p _
    by_cases hp : p.1 = k <;> simp [hp]
  · rw [dictSetdefaultAppend, if_neg hany, if_neg hany]
    simp [dictKeys]

/-- Populating the dictionary keeps its keys list duplicate-free. -/
theorem populate_dictKeys_nodup (keys : List String) (hits : List Hit)
    (d0 d : DupDict) (h0 : (dictKeys d0).Nodup)
    (hok : populateDictOfDuplicateDocs keys d0 hits = Except.ok d) :
    (dictKeys d).Nodup := by
  induction hits generalizing d0 with
  | nil =>
    have : d0 = d := by simpa [populateDictOfDuplicateDocs] using hok
    exact this ▸ h0
  | cons a t ih =>
    cases hck : combinedKey keys a.source with
    | error e => simp [populateDictOfDuplicateDocs, hck] at hok
    | ok ck =>
      have hok2 : populateDictOfDuplicateDocs keys
          (dictSetdefaultAppend d0 ck a.id) t = Except.ok d := by
        simpa [populateDictOfDuplicateDocs, hck] using hok
      refine ih (dictSetdefaultAppend d0 ck a.id) ?_ hok2
      rw [dictKeys_setdefault]
      cases hany : d0.any (fun p => p.1 == ck) with
      | true => simpa [hany] using h0
      | false =>
        have hnotin : ck ∉ dictKeys d0 := by
          intro hmem
          obtain ⟨p, hp, hpk⟩ := List.mem_map.mp hmem
          have : d0.any (fun p => p.1 == ck) = true :=
            List.any_eq_true.mpr ⟨p, hp, by simp [hpk]⟩
          simp [this] at hany
        simpa [hany, List.nodup_append] using ⟨h0, hnotin⟩

/-- Populating the dictionary keeps every stored group non-empty. -/
theorem populate_vals_nonempty (keys : List String) (hits : List Hit)
    (d0 d : DupDict) (h0 : ∀ p ∈ d0, p.2 ≠ [])
    (hok : populateDictOfDuplicateDocs keys d0 hits = Except.ok d) :
    ∀ p ∈ d, p.2 ≠ [] := by
  induction hits generalizing d0 with
  | nil =>
    have : d0 = d := by simpa [populateDictOfDuplicateDocs] using hok
    exact this ▸ h0
  | cons a t ih =>
    cases hck : combinedKey keys a.source with
    | error e => simp [populateDictOfDuplicateDocs, hck] at hok
    | ok ck =>
      have hok2 : populateDictOfDuplicateDocs keys
          (dictSetdefaultAppend d0 ck a.id) t = Except.ok d := by
        simpa [populateDictOfDuplicateDocs, hck] using hok
      refine ih (dictSetdefaultAppend d0 ck a.id) ?_ hok2
      intro p hp
      rw [dictSetdefaultAppend] at hp
      by_cases hany : d0.any (fun q => q.1 == ck) = true
      · rw [if_pos hany] at hp
        obtain ⟨q, hq, hqp⟩ := List.mem_map.mp hp
        by_cases hqk : q.1 = ck
        · rw [if_pos hqk] at hqp
          rw [← hqp]
          simp
        · rw [if_neg hqk] at hqp
          exact hqp ▸ h0 q hq
      · rw [if_neg hany] at hp
        rcases List.mem_append.mp hp with hq | hq
        · exact h0 p hq
        · have : p = (ck, [a.id]) := by simpa using hq
          rw [this]
          simp

/-- In a dictionary with duplicate-free keys, every entry is the value its
key looks up to. -/
theorem mem_lookupGroup_of_nodup (d : DupDict) (p : String × List String)
    (hnd : (dictKeys d).Nodup) (hp : p ∈ d) : lookupGroup d p.1 = p.2 := by
  induction d with
  | nil => cases hp
  | cons q t ih =>
    have hnd1 : (q.1 :: dictKeys t).Nodup := hnd
    have hnd2 := List.nodup_cons.mp hnd1
    rcases List.mem_cons.mp hp with rfl | hpt
    · simp [lookupGroup]
    · have hq : ¬ q.1 = p.1 := by
        intro he
        exact hnd2.1 (he ▸ List.mem_map_of_mem (fun r => r.1) hpt)
      simp only [lookupGroup, if_neg hq]
      exact ih hnd2.2 hpt

/-- A non-empty lookup certifies dictionary membership. -/
theorem lookupGroup_mem (d : DupDict) (fp : String)
    (h : lookupGroup d fp ≠ []) : (fp, lookupGroup d fp) ∈ d := by
  induction d with
  | nil => simp [lookupGroup] at h
  | cons q t ih =>
    by_cases hq : q.1 = fp
    · have hlk : lookupGroup (q :: t) fp = q.2 := by simp [lookupGroup, hq]
      rw [hlk]
      have hqq : (fp, q.2) = q := by
        cases q with
        | mk q1 q2 => simpa using (hq.symm : fp = q1)
      rw [hqq]
      exact List.mem_cons_self _ _
    · have hlk : lookupGroup (q :: t) fp = lookupGroup t fp := by
        simp [lookupGroup, hq]
      rw [hlk] at h ⊢
      exact List.mem_cons_of_mem _ (ih h)

/-- What populating the dictionary stores under each fingerprint: the ids
of the matching documents in scan order, appended to whatever was already
there. -/
theorem populate_lookupGroup (keys : List String) (hits : List Hit)
    (d0 d : DupDict) (fp : String)
    (hok : populateDictOfDuplicateDocs keys d0 hits = Except.ok d) :
    lookupGroup d fp = lookupGroup d0 fp ++ groupIds keys hits fp := by
  induction hits generalizing d0 with
  | nil =>
    have hd : d0 = d := by simpa [populateDictOfDuplicateDocs] using hok
    subst hd
    simp [groupIds]
  | cons a t ih =>
    cases hck : combinedKey keys a.source with
    | error e => simp [populateDictOfDuplicateDocs, hck] at hok
    | ok ck =>
      have hok2 : populateDictOfDuplicateDocs keys
          (dictSetdefaultAppend d0 ck a.id) t = Except.ok d := by
        simpa [populateDictOfDuplicateDocs, hck] using hok
      have hih := ih (dictSetdefaultAppend d0 ck a.id) hok2
      by_cases hfp : ck = fp
      · subst hfp
        rw [hih, lookupGroup_setdefault_self]
        have hpred : (ckOpt keys a.source == some ck) = true := by
          simp [ckOpt, hck, Except.toOption]
        simp [groupIds, List.filter_cons, hpred, List.append_assoc]
      · rw [hih, lookupGroup_setdefault_other d0 ck a.id fp (Ne.symm hfp)]
        have hpred : (ckOpt keys a.source == some fp) = false := by
          simpa [ckOpt, hck, Except.toOption] using hfp
        simp [groupIds, List.filter_cons, hpred]

/-- A successful populate certifies every document's combined key. -/
theorem populate_ok_forward (keys : List String) (hits : List Hit)
    (d0 d : DupDict)
    (hok : populateDictOfDuplicateDocs keys d0 hits = Except.ok d) :
    ∀ h ∈ hits, ∃ s, combinedKey keys h.source = Except.ok s := by
  induction hits generalizing d0 with
  | nil => intro h hh; cases hh
  | cons a t ih =>
    intro h hh
    cases hck : combinedKey keys a.source with
    | error e => simp [populateDictOfDuplicateDocs, hck] at hok
    | ok ck =>
      have hok2 : populateDictOfDuplicateDocs keys
          (dictSetdefaultAppend d0 ck a.id) t = Except.ok d := by
        simpa [populateDictOfDuplicateDocs, hck] using hok
      rcases List.mem_cons.mp hh with rfl | hht
      · exact ⟨ck, hck⟩
      · exact ih (dictSetdefaultAppend d0 ck a.id) hok2 h hht

/-- If every document's combined key succeeds, populating succeeds. -/
theorem populate_ok_exists (keys : List String) (hits : List Hit)
    (d0 : DupDict)
    (hall : ∀ h ∈ hits, ∃ s, combinedKey keys h.source = Except.ok s) :
    ∃ d, populateDictOfDuplicateDocs keys d0 hits = Except.ok d := by
  induction hits generalizing d0 with
  | nil => exact ⟨d0, rfl⟩
  | cons a t ih =>
    obtain ⟨s, hs⟩ := hall a (List.mem_cons_self _ _)
    obtain ⟨d, hd⟩ := ih (dictSetdefaultAppend d0 s a.id)
      (fun h hh => hall h (List.mem_cons_of_mem _ hh))
    exact ⟨d, by simp [populateDictOfDuplicateDocs, hs, hd]⟩

/-- The groups that the delete loop treats as duplicates. -/
def bigGroups (d : DupDict) : DupDict :=
  d.filter (fun p => decide (p.2.length > 1))

/-- Closed form of the delete loop's fold, for any starting accumulator. -/
theorem loopOverHashes_foldl (d : DupDict) (a1 : List (List String))
    (a2 : List String) :
    d.foldl (fun acc p =>
        if p.2.length > 1 then
          (acc.1 ++ [p.2], acc.2 ++ (mgetResponseIds p.2).drop 1)
        else acc) (a1, a2)
      = (a1 ++ (bigGroups d).map (fun p => p.2),
         a2 ++ ((bigGroups d).map (fun p => p.2.drop 1)).flatten) := by
  induction d generalizing a1 a2 with
  | nil => simp [bigGroups]
  | cons p t ih =>
    rw [List.foldl_cons]
    by_cases hp : p.2.length > 1
    · rw [if_pos hp, ih]
      have hbg : bigGroups (p :: t) = p :: bigGroups t := by
        simp [bigGroups, List.filter_cons, hp]
      rw [hbg]
      simp [mgetResponseIds, List.append_assoc]
    · rw [if_neg hp, ih]
      have hbg : bigGroups (p :: t) = bigGroups t := by
        simp [bigGroups, List.filter_cons, hp]
      rw [hbg]

/-- Closed form of `_loop_over_hashes_and_remove_duplicates`. -/
theorem loopOverHashes_eq (d : DupDict) :
    loopOverHashesAndRemoveDuplicates d
      = ((bigGroups d).map (fun p => p.2),
         ((bigGroups d).map (fun p => p.2.drop 1)).flatten) := by
  have h := loopOverHashes_foldl d [] []
  simpa [loopOverHashesAndRemoveDuplicates] using h

/-- Membership in the issued delete ids. -/
theorem mem_deleteIds (d : DupDict) (i : String) :
    i ∈ (loopOverHashesAndRemoveDuplicates d).2
      ↔ ∃ p ∈ d, p.2.length > 1 ∧ i ∈ p.2.drop 1 := by
  rw [loopOverHashes_eq]
  simp only [List.mem_flatten, List.mem_map, bigGroups, List.mem_filter,
    decide_eq_true_eq]
  constructor
  · rintro ⟨l, ⟨p, ⟨hpd, hbig⟩, rfl⟩, hil⟩
    exact ⟨p, hpd, hbig, hil⟩
  · rintro ⟨p, hpd, hbig, hip⟩
    exact ⟨p.2.drop 1, ⟨p, ⟨hpd, hbig⟩, rfl⟩, hip⟩

/-- Membership in the issued mget requests. -/
theorem mem_mgetRequests (d : DupDict) (r : List String) :
    r ∈ (loopOverHashesAndRemoveDuplicates d).1
      ↔ ∃ p ∈ d, p.2.length > 1 ∧ p.2 = r := by
  rw [loopOverHashes_eq]
  simp only [List.mem_map, bigGroups, List.mem_filter, decide_eq_true_eq]
  constructor
  · rintro ⟨p, ⟨hpd, hbig⟩, rfl⟩
    exact ⟨p, hpd, hbig, rfl⟩
  · rintro ⟨p, hpd, hbig, rfl⟩
    exact ⟨p, ⟨hpd, hbig⟩, rfl⟩

/-- Unpacking membership in a scan-order group. -/
theorem groupIds_elim (keys : List String) (docs : List Hit) (fp i : String)
    (h : i ∈ groupIds keys docs fp) :
    ∃ x ∈ docs, ckOpt keys x.source = some fp ∧ x.id = i := by
  simp only [groupIds, List.mem_map, List.mem_filter] at h
  obtain ⟨x, ⟨hx, hck⟩, hid⟩ := h
  exact ⟨x, hx, by simpa using hck, hid⟩

/-- A document list with duplicate-free ids keeps only its head when
filtering out the ids after the first. -/
theorem filter_not_tail_ids_eq_take_one (l : List Hit)
    (hnd : (l.map (fun h => h.id)).Nodup) :
    l.filter (fun h => !(((l.map (fun h => h.id)).drop 1).contains h.id))
      = l.take 1 := by
  cases l with
  | nil => rfl
  | cons a t =>
    have hnd1 : (a.id :: t.map (fun h => h.id)).Nodup := hnd
    have hnd2 := List.nodup_cons.mp hnd1
    simp only [List.map_cons, List.drop_succ_cons, List.drop_zero]
    rw [List.filter_cons]
    have ha : (!(t.map (fun h => h.id)).contains a.id) = true := by
      simpa using hnd2.1
    rw [if_pos ha]
    have ht : t.filter (fun h => !(t.map (fun h => h.id)).contains h.id) = [] := by
      rw [List.filter_eq_nil_iff]
      intro x hx
      simp [List.mem_map_of_mem (fun h => h.id) hx]
    rw [ht]
    rfl

/-- A document's id is condemned exactly when its own fingerprint group is
a duplicate group and the id is not the group's first-seen element. -/
theorem condemned_iff_own_group (keys : List String) (docs : List Hit)
    (d : DupDict) (fp : String) (h : Hit)
    (hids : (docs.map (fun x => x.id)).Nodup)
    (hok : populateDictOfDuplicateDocs keys [] docs = Except.ok d)
    (hdocs : h ∈ docs) (hfp : ckOpt keys h.source = some fp) :
    h.id ∈ (loopOverHashesAndRemoveDuplicates d).2
      ↔ ((groupIds keys docs fp).length > 1
          ∧ h.id ∈ (groupIds keys docs fp).drop 1) := by
  have hnd : (dictKeys d).Nodup :=
    populate_dictKeys_nodup keys docs [] d (by simp [dictKeys]) hok
  have hchar : ∀ q, lookupGroup d q = groupIds keys docs q := by
    intro q
    have hq := populate_lookupGroup keys docs [] d q hok
    simpa [lookupGroup] using hq
  constructor
  · intro hc
    obtain ⟨p, hpd, hbig, hdrop⟩ := (mem_deleteIds d h.id).mp hc
    have hpl : lookupGroup d p.1 = p.2 := mem_lookupGroup_of_nodup d p hnd hpd
    have hpg : p.2 = groupIds keys docs p.1 := by rw [← hpl, hchar]
    have hidg : h.id ∈ groupIds keys docs p.1 := by
      rw [← hpg]
      exact List.mem_of_mem_drop hdrop
    obtain ⟨x, hx, hckx, hidx⟩ := groupIds_elim keys docs p.1 h.id hidg
    have hxh : x = h := List.inj_on_of_nodup_map hids hx hdocs hidx
    have hp1 : p.1 = fp := by
      rw [hxh] at hckx
      exact Option.some.inj (hckx.symm.trans hfp)
    have hpg2 : p.2 = groupIds keys docs fp := by rw [hpg, hp1]
    exact ⟨hpg2 ▸ hbig, hpg2 ▸ hdrop⟩
  · rintro ⟨hbig, hdrop⟩
    have hg : lookupGroup d fp = groupIds keys docs fp := hchar fp
    have hne : lookupGroup d fp ≠ [] := by
      rw [hg]
      intro h0
      rw [h0] at hbig
      simp at hbig
    refine (mem_deleteIds d h.id).mpr
      ⟨(fp, lookupGroup d fp), lookupGroup_mem d fp hne, ?_, ?_⟩
    · simpa [hg] using hbig
    · simpa [hg] using hdrop

/-- After the delete pass, the surviving documents with fingerprint `fp`
are exactly the group's first-seen document (none if the fingerprint never
occurs). -/
theorem remaining_ids_take_one (keys : List String) (docs : List Hit)
    (d : DupDict) (fp : String)
    (hids : (docs.map (fun x => x.id)).Nodup)
    (hok : populateDictOfDuplicateDocs keys [] docs = Except.ok d) :
    ((afterDelete docs (loopOverHashesAndRemoveDuplicates d).2).filter
        (fun h => ckOpt keys h.source == some fp)).map (fun h => h.id)
      = (groupIds keys docs fp).take 1 := by
  have hcomm : (afterDelete docs (loopOverHashesAndRemoveDuplicates d).2).filter
        (fun h => ckOpt keys h.source == some fp)
      = (docs.filter (fun h => ckOpt keys h.source == some fp)).filter
        (fun h => !((loopOverHashesAndRemoveDuplicates d).2.contains h.id)) := by
    unfold afterDelete
    rw [List.filter_filter, List.filter_filter]
    exact List.filter_congr (fun a _ => Bool.and_comm _ _)
  rw [hcomm]
  have hlg : (docs.filter (fun h => ckOpt keys h.source == some fp)).map
      (fun h => h.id) = groupIds keys docs fp := rfl
  have hndl : ((docs.filter (fun h => ckOpt keys h.source == some fp)).map
      (fun h => h.id)).Nodup :=
    (List.Sublist.map (fun h => h.id) (List.filter_sublist docs)).nodup hids
  by_cases hbig : (groupIds keys docs fp).length > 1
  · have hrepl : ∀ h ∈ docs.filter (fun h => ckOpt keys h.source == some fp),
        (!((loopOverHashesAndRemoveDuplicates d).2.contains h.id))
          = (!((((docs.filter (fun h => ckOpt keys h.source == some fp)).map
              (fun x => x.id)).drop 1).contains h.id)) := by
      intro h hh
      obtain ⟨hhd, hhb⟩ := List.mem_filter.mp hh
      have hfpeq : ckOpt keys h.source = some fp := by simpa using hhb
      have hiff := condemned_iff_own_group keys docs d fp h hids hok hhd hfpeq
      by_cases hmem : h.id ∈ (groupIds keys docs fp).drop 1
      · have h1 : (loopOverHashesAndRemoveDuplicates d).2.contains h.id = true := by
          simpa using hiff.mpr ⟨hbig, hmem⟩
        have h2 : ((((docs.filter (fun h => ckOpt keys h.source == some fp)).map
            (fun x => x.id)).drop 1).contains h.id) = true := by
          simpa [groupIds] using hmem
        rw [h1, h2]
      · have hnm : h.id ∉ (loopOverHashesAndRemoveDuplicates d).2 :=
          fun hc => hmem (hiff.mp hc).2
        have h1 : (loopOverHashesAndRemoveDuplicates d).2.contains h.id = false := by
          simpa using hnm
        have h2 : ((((docs.filter (fun h => ckOpt keys h.source == some fp)).map
            (fun x => x.id)).drop 1).contains h.id) = false := by
          simpa [groupIds] using hmem
        rw [h1, h2]
    rw [List.filter_congr hrepl,
      filter_not_tail_ids_eq_take_one _ hndl, List.map_take, hlg]
  · have hrepl : ∀ h ∈ docs.filter (fun h => ckOpt keys h.source == some fp),
        (!((loopOverHashesAndRemoveDuplicates d).2.contains h.id)) = true := by
      intro h hh
      obtain ⟨hhd, hhb⟩ := List.mem_filter.mp hh
      have hfpeq : ckOpt keys h.source = some fp := by simpa using hhb
      have hiff := condemned_iff_own_group keys docs d fp h hids hok hhd hfpeq
      have hnm : h.id ∉ (loopOverHashesAndRemoveDuplicates d).2 :=
        fun hc => hbig (hiff.mp hc).1
      simpa using hnm
    rw [List.filter_eq_self.mpr hrepl]
    have hlen : (groupIds keys docs fp).length ≤ 1 := Nat.le_of_not_lt hbig
    rw [List.take_of_length_le hlen, hlg]

/-- C2: with duplicate-free document ids and a successful ingest, for every
fingerprint stored in the populated dictionary: the stored group is the
scan-order id list, so its head is the first-seen id; after the mget+delete
pass exactly the group's first-seen document remains for that fingerprint
(the surviving id list is the group's one-element head); and a group of
size one is never acted on — it is not mget-ed and none of its ids is ever
deleted. -/
theorem dedup_exactly_one_survivor (keys : List String) (docs : List Hit)
    (d : DupDict) (fp : String)
    (hids : (docs.map (fun h => h.id)).Nodup)
    (hok : populateDictOfDuplicateDocs keys [] docs = Except.ok d) :
    lookupGroup d fp = groupIds keys docs fp
    ∧ ((afterDelete docs (loopOverHashesAndRemoveDuplicates d).2).filter
        (fun h => ckOpt keys h.source == some fp)).map (fun h => h.id)
      = (lookupGroup d fp).take 1
    ∧ ((lookupGroup d fp).length = 1 →
        (∀ req ∈ (loopOverHashesAndRemoveDuplicates d).1,
          req ≠ lookupGroup d fp)
        ∧ ∀ i ∈ lookupGroup d fp,
            i ∉ (loopOverHashesAndRemoveDuplicates d).2) := by
  have hchar : lookupGroup d fp = groupIds keys docs fp := by
    have hq := populate_lookupGroup keys docs [] d fp hok
    simpa [lookupGroup] using hq
  refine ⟨hchar, ?_, ?_⟩
  · rw [hchar]
    exact remaining_ids_take_one keys docs d fp hids hok
  · intro hlen1
    constructor
    · intro req hreq he
      obtain ⟨p, hpd, hbig, hpr⟩ := (mem_mgetRequests d req).mp hreq
      rw [hpr, he] at hbig
      omega
    · intro i hi hic
      rw [hchar] at hi
      obtain ⟨x, hx, hckx, hidx⟩ := groupIds_elim keys docs fp i hi
      have hiff := condemned_iff_own_group keys docs d fp x hids hok hx hckx
      rw [hidx] at hiff
      have hbig := (hiff.mp hic).1
      rw [← hchar] at hbig
      omega

/-- Witness for C2 at the spec's example: keys `message, host`, documents
`1:(a,h)`, `2:(a,h)`, `3:(b,h)`: after the pass only document `1` remains
for the `(a,h)` fingerprint. -/
theorem dedup_exactly_one_survivor_witness :
    ((afterDelete
        [⟨"1", [("message", "a"), ("host", "h")]⟩,
         ⟨"2", [("message", "a"), ("host", "h")]⟩,
         ⟨"3", [("message", "b"), ("host", "h")]⟩]
        (loopOverHashesAndRemoveDuplicates
          [("ah", ["1", "2"]), ("bh", ["3"])]).2).filter
        (fun h => ckOpt ["message", "host"] h.source == some "ah")).map
      (fun h => h.id) = ["1"] :=
  ((dedup_exactly_one_survivor ["message", "host"]
      [⟨"1", [("message", "a"), ("host", "h")]⟩,
       ⟨"2", [("message", "a"), ("host", "h")]⟩,
       ⟨"3", [("message", "b"), ("host", "h")]⟩]
      [("ah", ["1", "2"]), ("bh", ["3"])] "ah"
      (by decide) rfl).2.1).trans (by decide)

/-- C8: dedup is idempotent — with duplicate-free ids and a successful first
ingest, running ingest over the partition as left by the delete pass
succeeds, every fingerprint group it builds has exactly one member, and the
second delete loop issues no mget and no deletion at all. -/
theorem dedup_idempotent (keys : List String) (docs : List Hit) (d : DupDict)
    (hids : (docs.map (fun h => h.id)).Nodup)
    (hok : populateDictOfDuplicateDocs keys [] docs = Except.ok d) :
    ∃ d2, populateDictOfDuplicateDocs keys []
        (afterDelete docs (loopOverHashesAndRemoveDuplicates d).2)
        = Except.ok d2
      ∧ (∀ p ∈ d2, p.2.length = 1)
      ∧ loopOverHashesAndRemoveDuplicates d2 = ([], []) := by
  have hall : ∀ h2 ∈ afterDelete docs (loopOverHashesAndRemoveDuplicates d).2,
      ∃ s, combinedKey keys h2.source = Except.ok s := by
    intro h2 hh2
    exact populate_ok_forward keys docs [] d hok h2 (List.mem_of_mem_filter hh2)
  obtain ⟨d2, hok2⟩ := populate_ok_exists keys _ [] hall
  have hnd2 : (dictKeys d2).Nodup :=
    populate_dictKeys_nodup keys _ [] d2 (by simp [dictKeys]) hok2
  have hne2 : ∀ p ∈ d2, p.2 ≠ [] :=
    populate_vals_nonempty keys _ [] d2 (by intro p hp; cases hp) hok2
  have hlen : ∀ p ∈ d2, p.2.length = 1 := by
    intro p hp
    have hl2 : lookupGroup d2 p.1 = p.2 := mem_lookupGroup_of_nodup d2 p hnd2 hp
    have hchar2 : lookupGroup d2 p.1
        = groupIds keys
            (afterDelete docs (loopOverHashesAndRemoveDuplicates d).2) p.1 := by
      have hq := populate_lookupGroup keys _ [] d2 p.1 hok2
      simpa [lookupGroup] using hq
    have hrem : groupIds keys
        (afterDelete docs (loopOverHashesAndRemoveDuplicates d).2) p.1
        = (groupIds keys docs p.1).take 1 :=
      remaining_ids_take_one keys docs d p.1 hids hok
    have hp2 : p.2 = (groupIds keys docs p.1).take 1 := by
      rw [← hrem, ← hchar2, hl2]
    have hnem : p.2 ≠ [] := hne2 p hp
    rw [hp2] at hnem ⊢
    cases hgg : groupIds keys docs p.1 with
    | nil => simp at hnem; exact absurd hgg hnem
    | cons x xs => simp
  refine ⟨d2, hok2, hlen, ?_⟩
  rw [loopOverHashes_eq]
  have hfil : bigGroups d2 = [] := by
    rw [bigGroups, List.filter_eq_nil_iff]
    intro p hp
    simp [hlen p hp]
  rw [hfil]
  rfl

/-- Witness for C8 at the spec's example partition. -/
theorem dedup_idempotent_witness :
    ∃ d2, populateDictOfDuplicateDocs ["message", "host"] []
        (afterDelete
          [⟨"1", [("message", "a"), ("host", "h")]⟩,
           ⟨"2", [("message", "a"), ("host", "h")]⟩,
           ⟨"3", [("message", "b"), ("host", "h")]⟩]
          (loopOverHashesAndRemoveDuplicates
            [("ah", ["1", "2"]), ("bh", ["3"])]).2) = Except.ok d2
      ∧ (∀ p ∈ d2, p.2.length = 1)
      ∧ loopOverHashesAndRemoveDuplicates d2 = ([], []) :=
  dedup_idempotent ["message", "host"]
    [⟨"1", [("message", "a"), ("host", "h")]⟩,
     ⟨"2", [("message", "a"), ("host", "h")]⟩,
     ⟨"3", [("message", "b"), ("host", "h")]⟩]
    [("ah", ["1", "2"]), ("bh", ["3"])] (by decide) rfl
